import Mathlib

/-!
# Firewall agent: the `UpdateRule` handler and `ip2int`

A shallow embedding of `src/lieutenant.go`: the gRPC handler
`server.UpdateRule`, its helper `ip2int`, the pieces of Go's `net` /
`net/netip` packages the handler calls (`net.ParseCIDR`, `IPMask.Size`,
`CIDRMask`, `IP.Mask`, modelled on the Go 1.22 standard library), and the
routing table the handler writes to.

Conventions
* a Go `byte` is a `Fin 256`; a `uint32` is a `Nat` kept below `2^32` by an
  explicit `% 2^32` wherever Go would wrap;
* a Go slice is a `List`; the `nil` slice is `[]`;
* a Go fixed array `[16]byte` is a total function `Nat → Byte` read at
  indices `0..15`;
* a Go `string` is read as its list of characters; every parser below only
  ever accepts ASCII characters, so bytes and characters coincide on every
  accepted input;
* a Go run-time panic (index out of range) is the result `none` of a
  function returning `Option`, or the outcome `Outcome.panic`.
-/

namespace Firewall

/-! ## Bytes, addresses, masks -/

/-- A Go `byte`. -/
abbrev Byte := Fin 256

/-- Go's conversion `uint8(n)` / `byte(n)` of a non-negative integer. -/
def toByte (n : Nat) : Byte := ⟨n % 256, Nat.mod_lt _ (by decide)⟩

/-- The Go type `net.IP`: a byte slice of length 4 or 16 (or `nil`). -/
abbrev IP := List Byte

/-- The Go type `net.IPMask`. -/
abbrev IPMask := List Byte

/-- The Go type `net.IPNet`. -/
structure IPNet where
  IP : Firewall.IP
  Mask : IPMask
deriving DecidableEq, Repr

/-- The 12-byte prefix `v4InV6Prefix` of an IPv4-mapped IPv6 address. -/
def v4InV6Prefix : List Byte := [0, 0, 0, 0, 0, 0, 0, 0, 0, 0, 0xff, 0xff]

/-- The value `netip.Addr`: either an IPv4 address (four bytes) or an IPv6
address (sixteen bytes, with an optional zone). -/
inductive Addr where
  | v4 (a b c d : Byte)
  | v6 (ip : Nat → Byte) (zone : List Char)

/-- The method `Addr.BitLen`. -/
def Addr.BitLen : Addr → Nat
  | .v4 _ _ _ _ => 32
  | .v6 _ _ => 128

/-- The method `Addr.Zone`. -/
def Addr.Zone : Addr → List Char
  | .v4 _ _ _ _ => []
  | .v6 _ z => z

/-- The method `Addr.As16`: the 16-byte form; an IPv4 address comes out as the
IPv4-mapped IPv6 address `::ffff:a.b.c.d`. -/
def Addr.As16 : Addr → List Byte
  | .v4 a b c d => v4InV6Prefix ++ [a, b, c, d]
  | .v6 ip _ => (List.range 16).map ip

/-! ## Text parsing (`net/netip`) -/

/-- The test `'0' <= c && c <= '9'`. -/
def isDigit (c : Char) : Bool := decide ('0'.toNat ≤ c.toNat ∧ c.toNat ≤ '9'.toNat)

/-- The loop of `dtoi`: decimal to integer, returning `(n, i, ok)`; `n` is
capped at `big = 0xFFFFFF`. -/
def dtoiLoop : List Char → Nat → Nat → Nat × Nat × Bool
  | [], n, i => if i = 0 then (0, 0, false) else (n, i, true)
  | c :: cs, n, i =>
    if isDigit c then
      let n1 := n * 10 + (c.toNat - '0'.toNat)
      if n1 ≥ 0xFFFFFF then (0xFFFFFF, i, false) else dtoiLoop cs n1 (i + 1)
    else if i = 0 then (0, 0, false) else (n, i, true)

/-- The function `dtoi` of package `net`. -/
def dtoi (s : List Char) : Nat × Nat × Bool := dtoiLoop s 0 0

/-- The loop of `netip.parseIPv4Fields`. `prev` is the previous character
(`none` at index 0), `fields` the four output bytes. -/
def parseIPv4FieldsLoop :
    List Char → Option Char → Nat → Nat → Nat → (Nat → Byte) → Option (Nat → Byte)
  | [], _, val, pos, _, fields =>
    if pos < 3 then none
    else some (fun j => if j = 3 then toByte val else fields j)
  | c :: rest, prev, val, pos, digLen, fields =>
    if isDigit c then
      if digLen = 1 ∧ val = 0 then none
      else
        let val1 := val * 10 + (c.toNat - '0'.toNat)
        if val1 > 255 then none
        else parseIPv4FieldsLoop rest (some c) val1 pos (digLen + 1) fields
    else if c = '.' then
      if prev = none ∨ rest = [] ∨ prev = some '.' then none
      else if pos = 3 then none
      else parseIPv4FieldsLoop rest (some c) 0 (pos + 1) 0
        (fun j => if j = pos then toByte val else fields j)
    else none

/-- The function `netip.parseIPv4Fields` on the whole of `s`. -/
def parseIPv4Fields (s : List Char) : Option (Nat → Byte) :=
  parseIPv4FieldsLoop s none 0 0 0 (fun _ => 0)

/-- The function `netip.parseIPv4`. -/
def parseIPv4 (s : List Char) : Option Addr :=
  match parseIPv4Fields s with
  | none => none
  | some f => some (Addr.v4 (f 0) (f 1) (f 2) (f 3))

/-- The value of a hexadecimal digit, `none` for any other character. -/
def hexVal (c : Char) : Option Nat :=
  if '0'.toNat ≤ c.toNat ∧ c.toNat ≤ '9'.toNat then some (c.toNat - '0'.toNat)
  else if 'a'.toNat ≤ c.toNat ∧ c.toNat ≤ 'f'.toNat then some (c.toNat - 'a'.toNat + 10)
  else if 'A'.toNat ≤ c.toNat ∧ c.toNat ≤ 'F'.toNat then some (c.toNat - 'A'.toNat + 10)
  else none

/-- The inner loop of `netip.parseIPv6` reading one hexadecimal group: returns
`(off, acc, rest)` where `rest` is `s[off:]`, or `none` on "more than 4 digits"
or "value >= 2^16". -/
def hexGroup : List Char → Nat → Nat → Option (Nat × Nat × List Char)
  | [], off, acc => some (off, acc, [])
  | c :: cs, off, acc =>
    match hexVal c with
    | none => some (off, acc, c :: cs)
    | some d =>
      let acc1 := (acc * 16 + d) % 2 ^ 32
      if off > 3 then none
      else if acc1 > 0xFFFF then none
      else hexGroup cs (off + 1) acc1

/-- The end of `netip.parseIPv6`, after the group loop: the whole string must be
used, and a short address is completed by expanding the ellipsis. -/
def parseIPv6Finish (s : List Char) (ip : Nat → Byte) (ellipsis : Option Nat) (i : Nat)
    (zone : List Char) : Option Addr :=
  if s ≠ [] then none
  else if i < 16 then
    match ellipsis with
    | none => none
    | some e =>
      let n := 16 - i
      some (Addr.v6 (fun k => if k < e then ip k else if k < e + n then 0 else ip (k - n)) zone)
  else
    match ellipsis with
    | some _ => none
    | none => some (Addr.v6 ip zone)

/-- The group loop `for i < 16` of `netip.parseIPv6`. Every iteration that
continues adds 2 to `i`, so `fuel` counts the groups still allowed
(`8` at `i = 0`); at `fuel = 0` the loop condition `i < 16` is false. -/
def parseIPv6Loop : Nat → List Char → (Nat → Byte) → Option Nat → Nat → List Char → Option Addr
  | 0, s, ip, ellipsis, i, zone => parseIPv6Finish s ip ellipsis i zone
  | fuel + 1, s, ip, ellipsis, i, zone =>
    if ¬ i < 16 then parseIPv6Finish s ip ellipsis i zone
    else
      match hexGroup s 0 0 with
      | none => none
      | some (off, acc, rest) =>
        if off = 0 then none
        else
          match rest with
          | '.' :: _ =>
            if ellipsis = none ∧ i ≠ 12 then none
            else if i + 4 > 16 then none
            else
              match parseIPv4Fields s with
              | none => none
              | some f =>
                parseIPv6Finish []
                  (fun k => if i ≤ k ∧ k < i + 4 then f (k - i) else ip k) ellipsis (i + 4) zone
          | [] =>
            parseIPv6Finish []
              (fun k => if k = i then toByte (acc / 256) else if k = i + 1 then toByte acc else ip k)
              ellipsis (i + 2) zone
          | c :: rest1 =>
            let ip1 : Nat → Byte :=
              fun k => if k = i then toByte (acc / 256) else if k = i + 1 then toByte acc else ip k
            if c ≠ ':' then none
            else
              match rest1 with
              | [] => none
              | ':' :: rest2 =>
                if ellipsis ≠ none then none
                else if rest2 = [] then parseIPv6Finish [] ip1 (some (i + 2)) (i + 2) zone
                else parseIPv6Loop fuel rest2 ip1 (some (i + 2)) (i + 2) zone
              | _ :: _ => parseIPv6Loop fuel rest1 ip1 ellipsis (i + 2) zone

/-- Split `s` at the first `%`: `(s[:i], some s[i+1:])`, or `(s, none)`. -/
def splitZone : List Char → List Char × Option (List Char)
  | [] => ([], none)
  | c :: cs =>
    if c = '%' then ([], some cs)
    else let r := splitZone cs; (c :: r.1, r.2)

/-- The function `netip.parseIPv6`. -/
def parseIPv6 (input : List Char) : Option Addr :=
  match splitZone input with
  | (_, some []) => none
  | (s, z) =>
    let zone := z.getD []
    match s with
    | ':' :: ':' :: [] => some (Addr.v6 (fun _ => 0) zone)
    | ':' :: ':' :: s1 => parseIPv6Loop 8 s1 (fun _ => 0) (some 0) 0 zone
    | _ => parseIPv6Loop 8 s (fun _ => 0) none 0 zone

/-- The scan of `netip.ParseAddr`: the first of `.`, `:`, `%` decides. -/
def ParseAddrScan (whole : List Char) : List Char → Option Addr
  | [] => none
  | c :: cs =>
    if c = '.' then parseIPv4 whole
    else if c = ':' then parseIPv6 whole
    else if c = '%' then none
    else ParseAddrScan whole cs

/-- The function `netip.ParseAddr`. -/
def ParseAddr (s : List Char) : Option Addr := ParseAddrScan s s

/-! ## Masks and `net.ParseCIDR` -/

/-- The loop of `net.CIDRMask` over the `l` bytes of the mask, `n` one-bits
still to write: `0xff` while `n >= 8`, then `^byte(0xff >> n)`, then zeros. -/
def CIDRMaskLoop : Nat → Nat → List Byte
  | 0, _ => []
  | l + 1, n =>
    if n ≥ 8 then (0xff : Byte) :: CIDRMaskLoop l (n - 8)
    else toByte (0xff ^^^ (0xff >>> n)) :: CIDRMaskLoop l 0

/-- The function `net.CIDRMask(ones, bits)`; `nil` unless `bits` is 32 or 128
and `ones <= bits`. -/
def CIDRMask (ones bits : Nat) : IPMask :=
  if bits ≠ 32 ∧ bits ≠ 128 then []
  else if ones > bits then []
  else CIDRMaskLoop (bits / 8) ones

/-- The loop `for v&0x80 != 0 { n++; v <<= 1 }` of `simpleMaskLength`; a byte has
eight bits, so eight rounds always reach `v&0x80 == 0`. -/
def countLeadingOnes : Nat → Byte → Nat → Nat × Byte
  | 0, v, n => (n, v)
  | fuel + 1, v, n =>
    if v.val &&& 0x80 ≠ 0 then countLeadingOnes fuel (toByte (v.val <<< 1)) (n + 1)
    else (n, v)

/-- The function `net.simpleMaskLength`; `none` stands for the result `-1`. -/
def simpleMaskLength : List Byte → Nat → Option Nat
  | [], n => some n
  | v :: rest, n =>
    if v = 0xff then simpleMaskLength rest (n + 8)
    else
      let r := countLeadingOnes 8 v n
      if r.2 ≠ 0 then none
      else if rest.all (fun b => b = 0) then some r.1
      else none

/-- The method `IPMask.Size`: `(ones, bits)`, and `(0, 0)` for a mask that is not
in canonical form. -/
def IPMask.Size (m : IPMask) : Nat × Nat :=
  match simpleMaskLength m 0 with
  | none => (0, 0)
  | some ones => (ones, m.length * 8)

/-- The method `IP.Mask`. -/
def IP.Mask (ip : IP) (mask : IPMask) : IP :=
  let mask1 : IPMask :=
    if mask.length = 16 ∧ ip.length = 4 ∧ (mask.take 12).all (fun b => b = 0xff)
    then mask.drop 12 else mask
  let ip1 : IP :=
    if mask1.length = 4 ∧ ip.length = 16 ∧ ip.take 12 = v4InV6Prefix
    then ip.drop 12 else ip
  if ip1.length ≠ mask1.length then []
  else List.zipWith (fun a b => toByte (a.val &&& b.val)) ip1 mask1

/-- Split `s` at the first `/`: `some (s[:i], s[i+1:])`, or `none` when there is
no `/`. -/
def splitSlash : List Char → Option (List Char × List Char)
  | [] => none
  | c :: cs =>
    if c = '/' then some ([], cs)
    else
      match splitSlash cs with
      | none => none
      | some (a, m) => some (c :: a, m)

/-- The function `net.ParseCIDR` on the characters of its argument: the address
as written (in 16-byte form) and the network it implies, or `none` for the
`ParseError`. -/
def ParseCIDRChars (s : List Char) : Option (IP × IPNet) :=
  match splitSlash s with
  | none => none
  | some (addr, mask) =>
    match ParseAddr addr with
    | none => none
    | some ipAddr =>
      if ipAddr.Zone ≠ [] then none
      else
        let r := dtoi mask
        if r.2.2 = false ∨ r.2.1 ≠ mask.length ∨ r.1 > ipAddr.BitLen then none
        else
          let m := CIDRMask r.1 ipAddr.BitLen
          let addr16 := ipAddr.As16
          some (addr16, { IP := IP.Mask addr16 m, Mask := m })

/-- The function `net.ParseCIDR`. -/
def ParseCIDR (s : String) : Option (IP × IPNet) := ParseCIDRChars s.toList

/-! ## `src/lieutenant.go` -/

/-- Go's conversion `uint32(x)` of a signed integer. -/
def toUint32 (x : Int) : Nat := (x % 2 ^ 32).toNat

/-- The helper `ip2int` (lieutenant.go:117): the big-endian `uint32` of bytes
12..15 of a 16-byte address, of bytes 0..3 otherwise. `none` is the run-time
panic on an index out of range. -/
def ip2int (ip : IP) : Option Nat :=
  if ip.length = 16 then do
    let a ← ip[12]?
    let b ← ip[13]?
    let c ← ip[14]?
    let d ← ip[15]?
    pure ((a.val <<< 24) % 2 ^ 32 ||| (b.val <<< 16) % 2 ^ 32 ||| (c.val <<< 8) % 2 ^ 32 ||| d.val)
  else do
    let a ← ip[0]?
    let b ← ip[1]?
    let c ← ip[2]?
    let d ← ip[3]?
    pure ((a.val <<< 24) % 2 ^ 32 ||| (b.val <<< 16) % 2 ^ 32 ||| (c.val <<< 8) % 2 ^ 32 ||| d.val)

/-- The request message `pb.Rule`: the CIDR string, the action (a protobuf enum,
an `int32`), and the redirect interface index (a `uint32`). -/
structure Rule where
  Cidr : String
  Action : Int
  RedirectIfindex : Nat
deriving DecidableEq, Repr

/-- Modelled from the spec: the enum `pb.Action` of the generated protobuf
package, which the repository imports but does not contain. The spec gives
`action: enum{PASS,DROP,REDIRECT}`; protobuf numbers enum values from 0 in the order
written. `general.go` uses `pb.Action_DROP` and `pb.Action_REDIRECT`. -/
def Action_PASS : Int := 0

/-- Modelled from the spec: see `Action_PASS`. -/
def Action_DROP : Int := 1

/-- Modelled from the spec: see `Action_PASS`. -/
def Action_REDIRECT : Int := 2

/-- The reply message `pb.UpdateResponse`. -/
structure UpdateResponse where
  Success : Bool
  Message : String
deriving DecidableEq, Repr

/-- The map key built in `UpdateRule` (lieutenant.go:38). -/
structure Key where
  PrefixLen : Nat
  Data : Nat
deriving DecidableEq, Repr

/-- The map value built in `UpdateRule` (lieutenant.go:47). -/
structure Value where
  Action : Nat
  IfIndex : Nat
deriving DecidableEq, Repr

/-- Modelled from the spec: the routing table, the map `routing_table` of the
packet program `xdp_soldier.o`, which this repository loads but does not
contain. The spec's Table is "the set of all installed Rules, keyed by Prefix
(one Action per distinct Prefix; inserting the same Prefix again replaces its
Action)"; the entries are the key/value structs that `UpdateRule` hands to
`Put`, and two entries are the same entry when their key structs are equal. -/
abbrev Table := List (Key × Value)

/-- The entry stored under `k`, if any. -/
def Table.lookup (t : Table) (k : Key) : Option Value :=
  (t.find? (fun e => decide (e.1 = k))).map Prod.snd

/-- Modelled from the spec: a successful `Put` ("inserts or replaces the Rule
for prefix"): any entry under `k` is dropped and `(k, v)` is stored. -/
def Table.insert (t : Table) (k : Key) (v : Value) : Table :=
  (k, v) :: t.filter (fun e => decide (e.1 ≠ k))

/-- The number of entries stored under `k`. -/
def Table.count (t : Table) (k : Key) : Nat :=
  (t.filter (fun e => decide (e.1 = k))).length

/-- The behaviour of the map on one `Put`: `some msg` when `routingMap.Put`
returns an error whose text is `msg` (the table is then left as it was),
`none` when it succeeds. It may depend on the table, the key and the value. -/
abbrev PutBehaviour := Table → Key → Value → Option String

/-- What a call of a Go function `(*pb.UpdateResponse, error)` does: it panics, or
it returns a response pointer (`none` for `nil`) and an error (`none` for
`nil`). -/
inductive Outcome where
  | panic
  | ret (resp : Option UpdateResponse) (err : Option String)
deriving DecidableEq, Repr

/-- The handler `server.UpdateRule` (lieutenant.go:26) as a function of the map's
behaviour `put`, the table before the call and the request; it yields the
outcome of the call and the table after it. -/
def UpdateRule (put : PutBehaviour) (t : Table) (req : Rule) : Outcome × Table :=
  match ParseCIDR req.Cidr with
  | none => (Outcome.ret (some { Success := false, Message := "Invalid CIDR" }) none, t)
  | some (ip, ipNet) =>
    let prefixLen := ipNet.Mask.Size.1
    match ip2int ip with
    | none => (Outcome.panic, t)
    | some data =>
      let key : Key := { PrefixLen := prefixLen % 2 ^ 32, Data := data }
      let value : Value := { Action := toUint32 req.Action, IfIndex := req.RedirectIfindex }
      match put t key value with
      | some msg => (Outcome.ret (some { Success := false, Message := msg }) none, t)
      | none =>
        (Outcome.ret (some { Success := true, Message := "Rule Applied" }) none,
          Table.insert t key value)

/-- Writing a `uint32` as four big-endian bytes (the inverse direction of
`ip2int`, as in `binary.BigEndian.PutUint32`); used only to state the round
trip. -/
def putUint32BigEndian (n : Nat) : List Byte :=
  [toByte (n >>> 24), toByte (n >>> 16), toByte (n >>> 8), toByte n]

/-! ## Arithmetic of `ip2int` -/

theorem bigEndian_or_eq_add (a b c d : Nat) (ha : a < 256) (hb : b < 256) (hc : c < 256)
    (hd : d < 256) :
    ((a <<< 24) % 2 ^ 32 ||| (b <<< 16) % 2 ^ 32 ||| (c <<< 8) % 2 ^ 32 ||| d)
      = a * 2 ^ 24 + b * 2 ^ 16 + c * 2 ^ 8 + d := by
  simp only [Nat.shiftLeft_eq]
  rw [Nat.mod_eq_of_lt (by omega), Nat.mod_eq_of_lt (by omega), Nat.mod_eq_of_lt (by omega)]
  have h1 : a * 2 ^ 24 ||| b * 2 ^ 16 = a * 2 ^ 24 + b * 2 ^ 16 := by
    have := Nat.mul_add_lt_is_or (i := 24) (b := b * 2 ^ 16) (by omega) a
    rw [Nat.mul_comm a, ← this]
  have h2 : a * 2 ^ 24 + b * 2 ^ 16 ||| c * 2 ^ 8 = a * 2 ^ 24 + b * 2 ^ 16 + c * 2 ^ 8 := by
    have := Nat.mul_add_lt_is_or (i := 16) (b := c * 2 ^ 8) (by omega) (a * 2 ^ 8 + b)
    have e : 2 ^ 16 * (a * 2 ^ 8 + b) = a * 2 ^ 24 + b * 2 ^ 16 := by omega
    rw [e] at this
    exact this.symm
  have h3 : a * 2 ^ 24 + b * 2 ^ 16 + c * 2 ^ 8 ||| d = a * 2 ^ 24 + b * 2 ^ 16 + c * 2 ^ 8 + d := by
    have := Nat.mul_add_lt_is_or (i := 8) (b := d) (by omega) (a * 2 ^ 16 + b * 2 ^ 8 + c)
    have e : 2 ^ 8 * (a * 2 ^ 16 + b * 2 ^ 8 + c) = a * 2 ^ 24 + b * 2 ^ 16 + c * 2 ^ 8 := by omega
    rw [e] at this
    exact this.symm
  rw [h1, h2, h3]

theorem ip2int_four (a b c d : Byte) :
    ip2int [a, b, c, d] = some (a.val * 2 ^ 24 + b.val * 2 ^ 16 + c.val * 2 ^ 8 + d.val) := by
  have h := bigEndian_or_eq_add a.val b.val c.val d.val a.isLt b.isLt c.isLt d.isLt
  simp only [ip2int, List.length_cons, List.length_nil]
  simp only [Nat.reduceAdd, Nat.reduceEqDiff, if_false]
  simp only [Nat.reducePow] at h
  simp [h]

theorem ip2int_sixteen (p : List Byte) (hp : p.length = 12) (a b c d : Byte) :
    ip2int (p ++ [a, b, c, d])
      = some (a.val * 2 ^ 24 + b.val * 2 ^ 16 + c.val * 2 ^ 8 + d.val) := by
  have h12 : (p ++ [a, b, c, d])[12]? = some a := by
    rw [List.getElem?_append_right (by omega)]; simp [hp]
  have h13 : (p ++ [a, b, c, d])[13]? = some b := by
    rw [List.getElem?_append_right (by omega)]; simp [hp]
  have h14 : (p ++ [a, b, c, d])[14]? = some c := by
    rw [List.getElem?_append_right (by omega)]; simp [hp]
  have h15 : (p ++ [a, b, c, d])[15]? = some d := by
    rw [List.getElem?_append_right (by omega)]; simp [hp]
  have h := bigEndian_or_eq_add a.val b.val c.val d.val a.isLt b.isLt c.isLt d.isLt
  have hl : (p ++ [a, b, c, d]).length = 16 := by simp [hp]
  simp only [ip2int, hl, if_true, h12, h13, h14, h15]
  simp only [Nat.reducePow] at h
  simp [h]

theorem putUint32BigEndian_bigEndian (a b c d : Byte) :
    putUint32BigEndian (a.val * 2 ^ 24 + b.val * 2 ^ 16 + c.val * 2 ^ 8 + d.val) = [a, b, c, d] := by
  have ha := a.isLt
  have hb := b.isLt
  have hc := c.isLt
  have hd := d.isLt
  simp only [putUint32BigEndian, toByte, Nat.shiftRight_eq_div_pow]
  refine congrArg₂ _ (Fin.ext ?_) (congrArg₂ _ (Fin.ext ?_) (congrArg₂ _ (Fin.ext ?_)
    (congrArg₂ _ (Fin.ext ?_) rfl)))
  all_goals simp only []; omega

/-! ## The result of `net.ParseCIDR` -/

theorem As16_length (a : Addr) : a.As16.length = 16 := by
  cases a <;> simp [Addr.As16, v4InV6Prefix]

theorem BitLen_cases (a : Addr) : a.BitLen = 32 ∨ a.BitLen = 128 := by
  cases a <;> simp [Addr.BitLen]

theorem ParseCIDR_some {s : String} {ip : IP} {ipNet : IPNet}
    (h : ParseCIDR s = some (ip, ipNet)) :
    ∃ (a : Addr) (n : Nat), n ≤ a.BitLen ∧ ip = a.As16 ∧
      ipNet.Mask = CIDRMask n a.BitLen ∧ ipNet.IP = IP.Mask a.As16 (CIDRMask n a.BitLen) := by
  unfold ParseCIDR ParseCIDRChars at h
  split at h
  · exact absurd h (by simp)
  · split at h
    · exact absurd h (by simp)
    · rename_i ipAddr _
      split at h
      · exact absurd h (by simp)
      · dsimp only at h
        split at h
        · exact absurd h (by simp)
        · rename_i am mk _ _ _ _ hc
          simp only [Option.some.injEq, Prod.mk.injEq] at h
          refine ⟨ipAddr, (dtoi mk).1, ?_, h.1.symm, ?_, ?_⟩
          · simp only [not_or, not_lt] at hc
            exact hc.2.2
          · rw [← h.2]
          · rw [← h.2]

set_option maxRecDepth 100000 in
theorem Size_CIDRMask_32 : ∀ n, n ≤ 32 → IPMask.Size (CIDRMask n 32) = (n, 32) := by
  decide

set_option maxRecDepth 100000 in
theorem Size_CIDRMask_128 : ∀ n, n ≤ 128 → IPMask.Size (CIDRMask n 128) = (n, 128) := by
  decide

theorem Size_CIDRMask (a : Addr) (n : Nat) (h : n ≤ a.BitLen) :
    IPMask.Size (CIDRMask n a.BitLen) = (n, a.BitLen) := by
  rcases BitLen_cases a with e | e
  · rw [e] at h ⊢; exact Size_CIDRMask_32 n h
  · rw [e] at h ⊢; exact Size_CIDRMask_128 n h

theorem ip2int_As16 (a : Addr) : ∃ data, ip2int a.As16 = some data ∧ data < 2 ^ 32 := by
  cases a with
  | v4 a b c d =>
    refine ⟨_, ip2int_sixteen v4InV6Prefix (by simp [v4InV6Prefix]) a b c d, ?_⟩
    have := a.isLt; have := b.isLt; have := c.isLt; have := d.isLt
    omega
  | v6 ip z =>
    have e : (List.range 16).map ip
        = (List.range 12).map ip ++ [ip 12, ip 13, ip 14, ip 15] := by
      simp [List.range_succ]
    refine ⟨(ip 12).val * 2 ^ 24 + (ip 13).val * 2 ^ 16 + (ip 14).val * 2 ^ 8 + (ip 15).val,
      ?_, ?_⟩
    · rw [Addr.As16, e]
      exact ip2int_sixteen _ (by simp) _ _ _ _
    · have := (ip 12).isLt; have := (ip 13).isLt; have := (ip 14).isLt; have := (ip 15).isLt
      omega

/-- Every address `ParseCIDR` returns has 16 bytes, its mask is canonical with at
most 128 one-bits, and `ip2int` is defined on it. -/
theorem ParseCIDR_facts {s : String} {ip : IP} {ipNet : IPNet}
    (h : ParseCIDR s = some (ip, ipNet)) :
    ip.length = 16 ∧ ipNet.Mask.Size.1 ≤ 128 ∧ (ipNet.Mask.Size.2 = 32 ∨ ipNet.Mask.Size.2 = 128) ∧
      ipNet.Mask.Size.1 ≤ ipNet.Mask.Size.2 ∧
      ∃ data, ip2int ip = some data ∧ data < 2 ^ 32 := by
  obtain ⟨a, n, hn, hip, hm, _⟩ := ParseCIDR_some h
  have hs := Size_CIDRMask a n hn
  rw [← hm] at hs
  have hb := BitLen_cases a
  refine ⟨by rw [hip]; exact As16_length a, ?_, ?_, ?_, ?_⟩
  · rw [hs]; simp only []; omega
  · rw [hs]; exact hb
  · rw [hs]; exact hn
  · rw [hip]; exact ip2int_As16 a

/-! ## The table -/

theorem Table.lookup_insert_self (t : Table) (k : Key) (v : Value) :
    (Table.insert t k v).lookup k = some v := by
  simp [Table.lookup, Table.insert]

theorem Table.find_filter_ne (t : Table) (k k1 : Key) (h : k1 ≠ k) :
    (t.filter (fun e => decide (e.1 ≠ k))).find? (fun e => decide (e.1 = k1))
      = t.find? (fun e => decide (e.1 = k1)) := by
  rw [List.find?_filter]
  congr 1
  funext e
  by_cases h1 : e.1 = k1
  · have h2 : ¬ e.1 = k := fun h3 => h (h1 ▸ h3)
    simp [h1, h2, h]
  · simp [h1]

theorem Table.lookup_insert_ne (t : Table) (k k1 : Key) (v : Value) (h : k1 ≠ k) :
    (Table.insert t k v).lookup k1 = t.lookup k1 := by
  have hk : ¬ k = k1 := fun e => h e.symm
  simp only [Table.lookup, Table.insert, List.find?_cons, hk, decide_False]
  rw [Table.find_filter_ne t k k1 h]

theorem Table.count_insert_self (t : Table) (k : Key) (v : Value) :
    (Table.insert t k v).count k = 1 := by
  simp [Table.count, Table.insert, List.filter_filter]

theorem Table.insert_insert (t : Table) (k : Key) (v v1 : Value) :
    Table.insert (Table.insert t k v) k v1 = Table.insert t k v1 := by
  simp [Table.insert, List.filter_filter]

/-! ## `UpdateRule` -/

/-- What `UpdateRule` does once the `Cidr` has parsed: one `Put`, and a reply that
depends only on whether it failed. -/
theorem UpdateRule_parsed (put : PutBehaviour) (t : Table) (req : Rule) {ip : IP}
    {ipNet : IPNet} {data : Nat} (h : ParseCIDR req.Cidr = some (ip, ipNet))
    (hd : ip2int ip = some data) :
    UpdateRule put t req =
      match put t ⟨ipNet.Mask.Size.1, data⟩ ⟨toUint32 req.Action, req.RedirectIfindex⟩ with
      | some msg => (Outcome.ret (some ⟨false, msg⟩) none, t)
      | none =>
        (Outcome.ret (some ⟨true, "Rule Applied"⟩) none,
          Table.insert t ⟨ipNet.Mask.Size.1, data⟩ ⟨toUint32 req.Action, req.RedirectIfindex⟩) := by
  have hf := (ParseCIDR_facts h).2.1
  have hm : ipNet.Mask.Size.1 % 2 ^ 32 = ipNet.Mask.Size.1 := Nat.mod_eq_of_lt (by omega)
  unfold UpdateRule
  simp only [h, hd, hm]

theorem UpdateRule_invalid (put : PutBehaviour) (t : Table) (req : Rule)
    (h : ParseCIDR req.Cidr = none) :
    UpdateRule put t req = (Outcome.ret (some ⟨false, "Invalid CIDR"⟩) none, t) := by
  unfold UpdateRule
  simp only [h]

/-- C1: for every request, every table and every behaviour of the map, `UpdateRule`
does not panic and returns a non-nil response together with a nil error. -/
theorem UpdateRule_returns_response_and_nil_error (put : PutBehaviour) (t : Table) (req : Rule) :
    ∃ resp : UpdateResponse, (UpdateRule put t req).1 = Outcome.ret (some resp) none := by
  cases h : ParseCIDR req.Cidr with
  | none => exact ⟨_, by rw [UpdateRule_invalid put t req h]⟩
  | some p =>
    obtain ⟨ip, ipNet⟩ := p
    obtain ⟨data, hd, _⟩ := (ParseCIDR_facts h).2.2.2.2
    rw [UpdateRule_parsed put t req h hd]
    cases put t ⟨ipNet.Mask.Size.1, data⟩ ⟨toUint32 req.Action, req.RedirectIfindex⟩ with
    | none => exact ⟨_, rfl⟩
    | some msg => exact ⟨_, rfl⟩

theorem ParseCIDRChars_prefix_too_long (s addr mask : List Char) (a : Addr)
    (hs : splitSlash s = some (addr, mask)) (ha : ParseAddr addr = some a)
    (hn : (dtoi mask).1 > a.BitLen) : ParseCIDRChars s = none := by
  unfold ParseCIDRChars
  simp only [hs, ha]
  split
  · rfl
  · simp [hn]

/-- C2: when `net.ParseCIDR` rejects the request's `Cidr` (in particular when the
text after the `/` is a number larger than the bit length of the address before
it), `UpdateRule` answers `Success=false`, `Message="Invalid CIDR"`, with a nil
error, and the table after the call is the table before it. -/
theorem UpdateRule_invalid_cidr (put : PutBehaviour) (t : Table) (req : Rule)
    (h : ParseCIDR req.Cidr = none ∨
      ∃ addr mask a, splitSlash req.Cidr.toList = some (addr, mask) ∧
        ParseAddr addr = some a ∧ a.BitLen < (dtoi mask).1) :
    ParseCIDR req.Cidr = none ∧
      UpdateRule put t req = (Outcome.ret (some ⟨false, "Invalid CIDR"⟩) none, t) := by
  have hp : ParseCIDR req.Cidr = none := by
    rcases h with h | ⟨addr, mask, a, hs, ha, hn⟩
    · exact h
    · exact ParseCIDRChars_prefix_too_long _ addr mask a hs ha hn
  exact ⟨hp, UpdateRule_invalid put t req hp⟩

/-- C2, at a prefix length above the family's width: `10.0.0.0/33` is rejected,
even by a map that would accept every `Put`. -/
theorem UpdateRule_invalid_cidr_witness :
    ParseCIDR "10.0.0.0/33" = none ∧
      UpdateRule (fun _ _ _ => none) [(⟨8, 5⟩, ⟨1, 0⟩)] ⟨"10.0.0.0/33", Action_DROP, 0⟩
        = (Outcome.ret (some ⟨false, "Invalid CIDR"⟩) none, [(⟨8, 5⟩, ⟨1, 0⟩)]) :=
  UpdateRule_invalid_cidr (fun _ _ _ => none) [(⟨8, 5⟩, ⟨1, 0⟩)]
    ⟨"10.0.0.0/33", Action_DROP, 0⟩
    (Or.inr ⟨"10.0.0.0".toList, "33".toList, Addr.v4 10 0 0 0, by decide, rfl, by decide⟩)

/-- C3 (as stated, refuted): a `REDIRECT` to interface index 0, which no interface
has, is answered `Success=true` and stored. -/
theorem UpdateRule_redirect_unresolved_stored :
    UpdateRule (fun _ _ _ => none) [] ⟨"1.2.3.4/32", Action_REDIRECT, 0⟩
      = (Outcome.ret (some ⟨true, "Rule Applied"⟩) none, [(⟨32, 16909060⟩, ⟨2, 0⟩)]) := by
  decide

/-- C3 (amended): `UpdateRule` does not consult any interface registry. Whatever
predicate `resolves` says about the request's `RedirectIfindex`, a `REDIRECT` request
whose `Cidr` parses and whose `Put` succeeds is answered `Success=true`, and the
table then maps its key to `(REDIRECT, RedirectIfindex)`. Only the `Put` that the
call performs is assumed to succeed. -/
theorem UpdateRule_redirect_not_validated (resolves : Nat → Bool) (put : PutBehaviour)
    (t : Table) (req : Rule) (ip : IP) (ipNet : IPNet)
    (hact : req.Action = Action_REDIRECT)
    (_hres : resolves req.RedirectIfindex = false)
    (h : ParseCIDR req.Cidr = some (ip, ipNet))
    (hput : ∀ data, ip2int ip = some data →
      put t ⟨ipNet.Mask.Size.1, data⟩ ⟨toUint32 req.Action, req.RedirectIfindex⟩ = none) :
    ∃ data, ip2int ip = some data ∧
      (UpdateRule put t req).1 = Outcome.ret (some ⟨true, "Rule Applied"⟩) none ∧
      (UpdateRule put t req).2.lookup ⟨ipNet.Mask.Size.1, data⟩
        = some ⟨toUint32 Action_REDIRECT, req.RedirectIfindex⟩ := by
  obtain ⟨data, hd, _⟩ := (ParseCIDR_facts h).2.2.2.2
  have hp := hput data hd
  have e := UpdateRule_parsed put t req h hd
  rw [hp] at e
  simp only [] at e
  refine ⟨data, hd, ?_, ?_⟩
  · rw [e]
  · rw [e, hact]
    exact Table.lookup_insert_self _ _ _

/-- C3 (amended) at `1.2.3.4/32`, `REDIRECT`, interface index 0, on a map that
refuses every key with `PrefixLen > 32` and on a non-empty table. -/
theorem UpdateRule_redirect_not_validated_witness :
    ∃ data, ip2int (v4InV6Prefix ++ [1, 2, 3, 4]) = some data ∧
      (UpdateRule (fun _ k _ => if k.PrefixLen > 32 then some "invalid argument" else none)
          [(⟨8, 167772160⟩, ⟨1, 0⟩)] ⟨"1.2.3.4/32", Action_REDIRECT, 0⟩).1
        = Outcome.ret (some ⟨true, "Rule Applied"⟩) none ∧
      (UpdateRule (fun _ k _ => if k.PrefixLen > 32 then some "invalid argument" else none)
          [(⟨8, 167772160⟩, ⟨1, 0⟩)] ⟨"1.2.3.4/32", Action_REDIRECT, 0⟩).2.lookup
          ⟨(IPMask.Size [255, 255, 255, 255]).1, data⟩
        = some ⟨toUint32 Action_REDIRECT, 0⟩ :=
  UpdateRule_redirect_not_validated (fun _ => false)
    (fun _ k _ => if k.PrefixLen > 32 then some "invalid argument" else none)
    [(⟨8, 167772160⟩, ⟨1, 0⟩)]
    ⟨"1.2.3.4/32", Action_REDIRECT, 0⟩ (v4InV6Prefix ++ [1, 2, 3, 4])
    ⟨[1, 2, 3, 4], [255, 255, 255, 255]⟩ rfl rfl (by decide) (fun _ _ => rfl)

/-! ## IPv4 requests -/

theorem CIDRMaskLoop_length (l n : Nat) : (CIDRMaskLoop l n).length = l := by
  induction l generalizing n with
  | zero => rfl
  | succ l ih =>
    unfold CIDRMaskLoop
    split <;> simp [ih]

theorem CIDRMask_length (a : Addr) (n : Nat) (h : n ≤ a.BitLen) :
    (CIDRMask n a.BitLen).length = a.BitLen / 8 := by
  unfold CIDRMask
  rcases BitLen_cases a with e | e <;> rw [e] at h ⊢
  · rw [if_neg (by omega), if_neg (by omega)]; exact CIDRMaskLoop_length _ _
  · rw [if_neg (by omega), if_neg (by omega)]; exact CIDRMaskLoop_length _ _

theorem Mask_v4 (a b c d m0 m1 m2 m3 : Byte) :
    IP.Mask (v4InV6Prefix ++ [a, b, c, d]) [m0, m1, m2, m3]
      = [toByte (a.val &&& m0.val), toByte (b.val &&& m1.val), toByte (c.val &&& m2.val),
          toByte (d.val &&& m3.val)] := by
  simp [IP.Mask, v4InV6Prefix]

/-- The shape of what `ParseCIDR` returns for an IPv4 string (4-byte mask): the
address is the IPv4-mapped form of the four bytes as written, and the network is
those bytes and-ed with the mask. -/
theorem ParseCIDR_v4 {s : String} {ip : IP} {ipNet : IPNet}
    (h : ParseCIDR s = some (ip, ipNet)) (h4 : ipNet.Mask.length = 4) :
    ∃ (a b c d m0 m1 m2 m3 : Byte) (n : Nat), n ≤ 32 ∧
      ip = v4InV6Prefix ++ [a, b, c, d] ∧ ipNet.Mask = [m0, m1, m2, m3] ∧
      ipNet.Mask = CIDRMask n 32 ∧ ipNet.Mask.Size.1 = n ∧
      ipNet.IP = [toByte (a.val &&& m0.val), toByte (b.val &&& m1.val),
        toByte (c.val &&& m2.val), toByte (d.val &&& m3.val)] := by
  obtain ⟨ad, n, hn, hip, hm, hnet⟩ := ParseCIDR_some h
  have hl := CIDRMask_length ad n hn
  have hs := Size_CIDRMask ad n hn
  rw [← hm] at hl hs
  cases ad with
  | v6 f z =>
    simp only [Addr.BitLen] at hl
    omega
  | v4 a b c d =>
    simp only [Addr.BitLen, Addr.As16] at hn hm hs hnet hip
    match hM : ipNet.Mask, h4 with
    | [m0, m1, m2, m3], _ =>
      refine ⟨a, b, c, d, m0, m1, m2, m3, n, hn, hip, rfl, ?_, ?_, ?_⟩
      · rw [← hM, hm]
      · rw [← hM, hs]
      · rw [hnet, ← hm, hM]
        exact Mask_v4 a b c d m0 m1 m2 m3

theorem bigEndian_inj (a b c d a1 b1 c1 d1 : Byte)
    (h : a.val * 2 ^ 24 + b.val * 2 ^ 16 + c.val * 2 ^ 8 + d.val
      = a1.val * 2 ^ 24 + b1.val * 2 ^ 16 + c1.val * 2 ^ 8 + d1.val) :
    a = a1 ∧ b = b1 ∧ c = c1 ∧ d = d1 := by
  have := a.isLt; have := b.isLt; have := c.isLt; have := d.isLt
  have := a1.isLt; have := b1.isLt; have := c1.isLt; have := d1.isLt
  refine ⟨Fin.ext ?_, Fin.ext ?_, Fin.ext ?_, Fin.ext ?_⟩ <;> omega

/-- C4 (as stated, refuted): `10.1.2.3/8` denotes the network `10.0.0.0/8`
(`ipNet.IP` is `10.0.0.0`, 167772160), but the key handed to `Put` for it carries
the address `10.1.2.3` (167838211): the reply is `Success=true` and the one entry of
the table is `(8, 167838211)`. -/
theorem UpdateRule_key_not_masked :
    (ParseCIDR "10.1.2.3/8").map (fun p => (p.2.Mask.Size.1, ip2int p.2.IP, ip2int p.1))
        = some (8, some 167772160, some 167838211) ∧
      UpdateRule (fun _ _ _ => none) [] ⟨"10.1.2.3/8", Action_DROP, 0⟩
        = (Outcome.ret (some ⟨true, "Rule Applied"⟩) none, [(⟨8, 167838211⟩, ⟨1, 0⟩)]) := by
  decide

/-- C4 (amended): for an accepted IPv4 request whose `Put` succeeds, the stored
key has `PrefixLen` equal to the CIDR's prefix length and `Data` equal to the
big-endian value of the four address bytes as written (not masked), the stored
value carries the request's action and interface index, and `Data` is the
normalized network address exactly when the written address equals it. Only the
`Put` that the call performs is assumed to succeed. -/
theorem UpdateRule_stores_written_address (put : PutBehaviour) (t : Table) (req : Rule)
    (ip : IP) (ipNet : IPNet) (h : ParseCIDR req.Cidr = some (ip, ipNet))
    (h4 : ipNet.Mask.length = 4)
    (hput : ∀ data, ip2int ip = some data →
      put t ⟨ipNet.Mask.Size.1, data⟩ ⟨toUint32 req.Action, req.RedirectIfindex⟩ = none) :
    ∃ a b c d : Byte, ip = v4InV6Prefix ++ [a, b, c, d] ∧
      UpdateRule put t req
        = (Outcome.ret (some ⟨true, "Rule Applied"⟩) none,
            Table.insert t
              ⟨ipNet.Mask.Size.1, a.val * 2 ^ 24 + b.val * 2 ^ 16 + c.val * 2 ^ 8 + d.val⟩
              ⟨toUint32 req.Action, req.RedirectIfindex⟩) ∧
      (UpdateRule put t req).2.lookup
          ⟨ipNet.Mask.Size.1, a.val * 2 ^ 24 + b.val * 2 ^ 16 + c.val * 2 ^ 8 + d.val⟩
        = some ⟨toUint32 req.Action, req.RedirectIfindex⟩ ∧
      (ip2int ipNet.IP = some (a.val * 2 ^ 24 + b.val * 2 ^ 16 + c.val * 2 ^ 8 + d.val)
        ↔ ipNet.IP = [a, b, c, d]) := by
  obtain ⟨a, b, c, d, m0, m1, m2, m3, n, _, hip, _, _, _, hnet⟩ := ParseCIDR_v4 h h4
  have hd : ip2int ip = some (a.val * 2 ^ 24 + b.val * 2 ^ 16 + c.val * 2 ^ 8 + d.val) := by
    rw [hip]; exact ip2int_sixteen _ (by simp [v4InV6Prefix]) a b c d
  have hu := UpdateRule_parsed put t req h hd
  rw [hput _ hd] at hu
  simp only [] at hu
  refine ⟨a, b, c, d, hip, hu, ?_, ?_⟩
  · rw [hu]; exact Table.lookup_insert_self _ _ _
  · constructor
    · intro he
      rw [hnet, ip2int_four] at he
      obtain ⟨e1, e2, e3, e4⟩ := bigEndian_inj _ _ _ _ _ _ _ _ (Option.some.inj he)
      rw [hnet, e1, e2, e3, e4]
    · intro he
      rw [he]; exact ip2int_four a b c d

/-- C4 (amended) at `10.1.2.3/8`, on a map that refuses every key with
`PrefixLen > 32` and on a non-empty table. -/
theorem UpdateRule_stores_written_address_witness :
    ∃ a b c d : Byte, (v4InV6Prefix ++ [10, 1, 2, 3] : IP) = v4InV6Prefix ++ [a, b, c, d] ∧
      UpdateRule (fun _ k _ => if k.PrefixLen > 32 then some "invalid argument" else none)
          [(⟨32, 134744072⟩, ⟨2, 3⟩)] ⟨"10.1.2.3/8", Action_DROP, 0⟩
        = (Outcome.ret (some ⟨true, "Rule Applied"⟩) none,
            Table.insert [(⟨32, 134744072⟩, ⟨2, 3⟩)]
              ⟨(IPMask.Size [255, 0, 0, 0]).1,
                a.val * 2 ^ 24 + b.val * 2 ^ 16 + c.val * 2 ^ 8 + d.val⟩
              ⟨toUint32 Action_DROP, 0⟩) ∧
      (UpdateRule (fun _ k _ => if k.PrefixLen > 32 then some "invalid argument" else none)
          [(⟨32, 134744072⟩, ⟨2, 3⟩)] ⟨"10.1.2.3/8", Action_DROP, 0⟩).2.lookup
          ⟨(IPMask.Size [255, 0, 0, 0]).1, a.val * 2 ^ 24 + b.val * 2 ^ 16 + c.val * 2 ^ 8 + d.val⟩
        = some ⟨toUint32 Action_DROP, 0⟩ ∧
      (ip2int ([10, 0, 0, 0] : IP)
          = some (a.val * 2 ^ 24 + b.val * 2 ^ 16 + c.val * 2 ^ 8 + d.val)
        ↔ ([10, 0, 0, 0] : IP) = [a, b, c, d]) :=
  UpdateRule_stores_written_address
    (fun _ k _ => if k.PrefixLen > 32 then some "invalid argument" else none)
    [(⟨32, 134744072⟩, ⟨2, 3⟩)] ⟨"10.1.2.3/8", Action_DROP, 0⟩
    (v4InV6Prefix ++ [10, 1, 2, 3]) ⟨[10, 0, 0, 0], [255, 0, 0, 0]⟩ (by decide) rfl
    (fun _ _ => rfl)

/-! ## Replacing and repeating -/

/-- C5 (as stated, refuted): `2001:db8::1/32` and `2001:db8::2/32` denote the same
prefix (same family, same length 32, same network `2001:db8::`; `ParseCIDR` returns
the same network for both), yet the keys handed to `Put` are `(32, 1)` and
`(32, 2)`, which differ within their 32 bits of `Data`: installing one after the
other into an empty table leaves two entries, the first still carrying its own
action. -/
theorem UpdateRule_same_prefix_two_entries :
    (ParseCIDR "2001:db8::1/32").map Prod.snd = (ParseCIDR "2001:db8::2/32").map Prod.snd ∧
      (ParseCIDR "2001:db8::1/32").map (fun p => (p.2.Mask.Size, ip2int p.1))
        = some ((32, 128), some 1) ∧
      (ParseCIDR "2001:db8::2/32").map (fun p => (p.2.Mask.Size, ip2int p.1))
        = some ((32, 128), some 2) ∧
      UpdateRule (fun _ _ _ => none)
          (UpdateRule (fun _ _ _ => none) [] ⟨"2001:db8::1/32", Action_DROP, 0⟩).2
          ⟨"2001:db8::2/32", Action_PASS, 0⟩
        = (Outcome.ret (some ⟨true, "Rule Applied"⟩) none,
            [(⟨32, 2⟩, ⟨0, 0⟩), (⟨32, 1⟩, ⟨1, 0⟩)]) := by
  decide

/-- C5 (amended): two accepted requests that denote the same prefix and are written
with the same address bits (equal `ip2int` of the parsed address) hand the same
key to `Put`; when both calls, made in order, report success, the table holds
exactly one entry under that key, its value is the second request's
`(action, ifindex)`, the table is the original one with that single key replaced,
and every other key is as it was. Only the two `Put`s that the calls perform are
assumed to succeed. -/
theorem UpdateRule_same_key_last_write_wins (put : PutBehaviour) (t : Table) (r1 r2 : Rule)
    (ip1 ip2 : IP) (n1 n2 : IPNet)
    (h1 : ParseCIDR r1.Cidr = some (ip1, n1)) (h2 : ParseCIDR r2.Cidr = some (ip2, n2))
    (hnet : n1 = n2) (haddr : ip2int ip1 = ip2int ip2)
    (hfirst : (UpdateRule put t r1).1 = Outcome.ret (some ⟨true, "Rule Applied"⟩) none)
    (hsecond : (UpdateRule put (UpdateRule put t r1).2 r2).1
      = Outcome.ret (some ⟨true, "Rule Applied"⟩) none) :
    ∃ data, ip2int ip1 = some data ∧ ip2int ip2 = some data ∧
      (UpdateRule put t r1).2
        = Table.insert t ⟨n1.Mask.Size.1, data⟩ ⟨toUint32 r1.Action, r1.RedirectIfindex⟩ ∧
      (UpdateRule put (UpdateRule put t r1).2 r2).2
        = Table.insert t ⟨n1.Mask.Size.1, data⟩ ⟨toUint32 r2.Action, r2.RedirectIfindex⟩ ∧
      (UpdateRule put (UpdateRule put t r1).2 r2).2.count ⟨n1.Mask.Size.1, data⟩ = 1 ∧
      (UpdateRule put (UpdateRule put t r1).2 r2).2.lookup ⟨n1.Mask.Size.1, data⟩
        = some ⟨toUint32 r2.Action, r2.RedirectIfindex⟩ ∧
      ∀ k : Key, k ≠ ⟨n1.Mask.Size.1, data⟩ →
        (UpdateRule put (UpdateRule put t r1).2 r2).2.lookup k = t.lookup k := by
  obtain ⟨data, hd2, _⟩ := (ParseCIDR_facts h2).2.2.2.2
  have hd1 : ip2int ip1 = some data := by rw [haddr]; exact hd2
  subst hnet
  have e1 := UpdateRule_parsed put t r1 h1 hd1
  cases hp1 : put t ⟨n1.Mask.Size.1, data⟩ ⟨toUint32 r1.Action, r1.RedirectIfindex⟩ with
  | some msg =>
    rw [hp1] at e1
    rw [e1] at hfirst
    simp at hfirst
  | none =>
    rw [hp1] at e1
    simp only [] at e1
    have e2 := UpdateRule_parsed put (UpdateRule put t r1).2 r2 h2 hd2
    cases hp2 : put (UpdateRule put t r1).2 ⟨n1.Mask.Size.1, data⟩
        ⟨toUint32 r2.Action, r2.RedirectIfindex⟩ with
    | some msg =>
      rw [hp2] at e2
      rw [e2] at hsecond
      simp at hsecond
    | none =>
      rw [hp2] at e2
      simp only [] at e2
      have e3 : (UpdateRule put (UpdateRule put t r1).2 r2).2
          = Table.insert t ⟨n1.Mask.Size.1, data⟩ ⟨toUint32 r2.Action, r2.RedirectIfindex⟩ := by
        rw [e2, e1]
        exact Table.insert_insert _ _ _ _
      refine ⟨data, hd1, hd2, by rw [e1], e3, ?_, ?_, ?_⟩
      · rw [e3]; exact Table.count_insert_self _ _ _
      · rw [e3]; exact Table.lookup_insert_self _ _ _
      · intro k hk
        rw [e3]
        exact Table.lookup_insert_ne _ _ _ _ hk

/-- C5 (amended) at `185.100.0.0/16`, first `DROP` then `REDIRECT` to interface 3, on
a map that refuses every key with `PrefixLen > 32` and on a table that already
holds an entry under that key and one under another key. -/
theorem UpdateRule_same_key_last_write_wins_witness :
    ∃ data, ip2int (v4InV6Prefix ++ [185, 100, 0, 0]) = some data ∧
      ip2int (v4InV6Prefix ++ [185, 100, 0, 0]) = some data ∧
      (UpdateRule (fun _ k _ => if k.PrefixLen > 32 then some "invalid argument" else none)
          [(⟨16, 3110338560⟩, ⟨0, 0⟩), (⟨32, 134744072⟩, ⟨2, 3⟩)]
          ⟨"185.100.0.0/16", Action_DROP, 0⟩).2
        = Table.insert [(⟨16, 3110338560⟩, ⟨0, 0⟩), (⟨32, 134744072⟩, ⟨2, 3⟩)]
            ⟨(IPMask.Size [255, 255, 0, 0]).1, data⟩ ⟨toUint32 Action_DROP, 0⟩ ∧
      (UpdateRule (fun _ k _ => if k.PrefixLen > 32 then some "invalid argument" else none)
          (UpdateRule (fun _ k _ => if k.PrefixLen > 32 then some "invalid argument" else none)
            [(⟨16, 3110338560⟩, ⟨0, 0⟩), (⟨32, 134744072⟩, ⟨2, 3⟩)]
            ⟨"185.100.0.0/16", Action_DROP, 0⟩).2
          ⟨"185.100.0.0/16", Action_REDIRECT, 3⟩).2
        = Table.insert [(⟨16, 3110338560⟩, ⟨0, 0⟩), (⟨32, 134744072⟩, ⟨2, 3⟩)]
            ⟨(IPMask.Size [255, 255, 0, 0]).1, data⟩ ⟨toUint32 Action_REDIRECT, 3⟩ ∧
      (UpdateRule (fun _ k _ => if k.PrefixLen > 32 then some "invalid argument" else none)
          (UpdateRule (fun _ k _ => if k.PrefixLen > 32 then some "invalid argument" else none)
            [(⟨16, 3110338560⟩, ⟨0, 0⟩), (⟨32, 134744072⟩, ⟨2, 3⟩)]
            ⟨"185.100.0.0/16", Action_DROP, 0⟩).2
          ⟨"185.100.0.0/16", Action_REDIRECT, 3⟩).2.count
          ⟨(IPMask.Size [255, 255, 0, 0]).1, data⟩ = 1 ∧
      (UpdateRule (fun _ k _ => if k.PrefixLen > 32 then some "invalid argument" else none)
          (UpdateRule (fun _ k _ => if k.PrefixLen > 32 then some "invalid argument" else none)
            [(⟨16, 3110338560⟩, ⟨0, 0⟩), (⟨32, 134744072⟩, ⟨2, 3⟩)]
            ⟨"185.100.0.0/16", Action_DROP, 0⟩).2
          ⟨"185.100.0.0/16", Action_REDIRECT, 3⟩).2.lookup
          ⟨(IPMask.Size [255, 255, 0, 0]).1, data⟩
        = some ⟨toUint32 Action_REDIRECT, 3⟩ ∧
      ∀ k : Key, k ≠ ⟨(IPMask.Size [255, 255, 0, 0]).1, data⟩ →
        (UpdateRule (fun _ k _ => if k.PrefixLen > 32 then some "invalid argument" else none)
          (UpdateRule (fun _ k _ => if k.PrefixLen > 32 then some "invalid argument" else none)
            [(⟨16, 3110338560⟩, ⟨0, 0⟩), (⟨32, 134744072⟩, ⟨2, 3⟩)]
            ⟨"185.100.0.0/16", Action_DROP, 0⟩).2
          ⟨"185.100.0.0/16", Action_REDIRECT, 3⟩).2.lookup k
          = Table.lookup [(⟨16, 3110338560⟩, ⟨0, 0⟩), (⟨32, 134744072⟩, ⟨2, 3⟩)] k :=
  UpdateRule_same_key_last_write_wins
    (fun _ k _ => if k.PrefixLen > 32 then some "invalid argument" else none)
    [(⟨16, 3110338560⟩, ⟨0, 0⟩), (⟨32, 134744072⟩, ⟨2, 3⟩)]
    ⟨"185.100.0.0/16", Action_DROP, 0⟩ ⟨"185.100.0.0/16", Action_REDIRECT, 3⟩
    (v4InV6Prefix ++ [185, 100, 0, 0]) (v4InV6Prefix ++ [185, 100, 0, 0])
    ⟨[185, 100, 0, 0], [255, 255, 0, 0]⟩ ⟨[185, 100, 0, 0], [255, 255, 0, 0]⟩
    (by decide) (by decide) rfl rfl (by decide) (by decide)

/-- C6: a request that `UpdateRule` applies successfully twice in a row leaves, the
second time, exactly the table and the reply of the first time. -/
theorem UpdateRule_idempotent (put : PutBehaviour) (t : Table) (req : Rule)
    (hfirst : (UpdateRule put t req).1 = Outcome.ret (some ⟨true, "Rule Applied"⟩) none)
    (hsecond : (UpdateRule put (UpdateRule put t req).2 req).1
      = Outcome.ret (some ⟨true, "Rule Applied"⟩) none) :
    UpdateRule put (UpdateRule put t req).2 req = UpdateRule put t req := by
  cases h : ParseCIDR req.Cidr with
  | none =>
    rw [UpdateRule_invalid put t req h] at hfirst
    simp at hfirst
  | some p =>
    obtain ⟨ip, ipNet⟩ := p
    obtain ⟨data, hd, _⟩ := (ParseCIDR_facts h).2.2.2.2
    have e1 := UpdateRule_parsed put t req h hd
    cases hp1 : put t ⟨ipNet.Mask.Size.1, data⟩ ⟨toUint32 req.Action, req.RedirectIfindex⟩ with
    | some msg =>
      rw [hp1] at e1
      rw [e1] at hfirst
      simp at hfirst
    | none =>
      rw [hp1] at e1
      simp only [] at e1
      have e2 := UpdateRule_parsed put (UpdateRule put t req).2 req h hd
      cases hp2 : put (UpdateRule put t req).2 ⟨ipNet.Mask.Size.1, data⟩
          ⟨toUint32 req.Action, req.RedirectIfindex⟩ with
      | some msg =>
        rw [hp2] at e2
        rw [e2] at hsecond
        simp at hsecond
      | none =>
        rw [hp2] at e2
        simp only [] at e2
        rw [e2, e1]
        simp only [Table.insert_insert]

theorem UpdateRule_idempotent_witness :
    UpdateRule (fun _ _ _ => none)
        (UpdateRule (fun _ _ _ => none) [(⟨8, 167772160⟩, ⟨0, 0⟩)]
          ⟨"8.8.8.8/32", Action_REDIRECT, 3⟩).2
        ⟨"8.8.8.8/32", Action_REDIRECT, 3⟩
      = UpdateRule (fun _ _ _ => none) [(⟨8, 167772160⟩, ⟨0, 0⟩)]
          ⟨"8.8.8.8/32", Action_REDIRECT, 3⟩ :=
  UpdateRule_idempotent (fun _ _ _ => none) [(⟨8, 167772160⟩, ⟨0, 0⟩)]
    ⟨"8.8.8.8/32", Action_REDIRECT, 3⟩ (by decide) (by decide)

/-! ## The full behaviour of `UpdateRule`, and `ip2int` -/

/-- C8: `UpdateRule` answers `Success=true` exactly when the `Cidr` parses and the
`Put` succeeds, and the message is then "Rule Applied"; the table it leaves maps
the key `(prefix length, ip2int of the parsed address)` to
`(uint32 action, RedirectIfindex)` and agrees with the old table on every other
key; when the `Put` fails the reply is `Success=false` with the error's text and
the table is as before. -/
theorem UpdateRule_success_iff (put : PutBehaviour) (t : Table) (req : Rule) :
    ((∃ resp : UpdateResponse,
        (UpdateRule put t req).1 = Outcome.ret (some resp) none ∧ resp.Success = true)
      ↔ ∃ ip ipNet data, ParseCIDR req.Cidr = some (ip, ipNet) ∧ ip2int ip = some data ∧
          put t ⟨ipNet.Mask.Size.1, data⟩ ⟨toUint32 req.Action, req.RedirectIfindex⟩ = none) ∧
    (∀ ip ipNet, ParseCIDR req.Cidr = some (ip, ipNet) →
      ∃ data, ip2int ip = some data ∧
        (put t ⟨ipNet.Mask.Size.1, data⟩ ⟨toUint32 req.Action, req.RedirectIfindex⟩ = none →
          (UpdateRule put t req).1 = Outcome.ret (some ⟨true, "Rule Applied"⟩) none ∧
          (UpdateRule put t req).2.lookup ⟨ipNet.Mask.Size.1, data⟩
            = some ⟨toUint32 req.Action, req.RedirectIfindex⟩ ∧
          ∀ k : Key, k ≠ ⟨ipNet.Mask.Size.1, data⟩ →
            (UpdateRule put t req).2.lookup k = t.lookup k) ∧
        (∀ msg,
          put t ⟨ipNet.Mask.Size.1, data⟩ ⟨toUint32 req.Action, req.RedirectIfindex⟩ = some msg →
          UpdateRule put t req = (Outcome.ret (some ⟨false, msg⟩) none, t))) := by
  constructor
  · constructor
    · rintro ⟨resp, hr, hs⟩
      cases h : ParseCIDR req.Cidr with
      | none =>
        rw [UpdateRule_invalid put t req h] at hr
        simp only [Outcome.ret.injEq, Option.some.injEq, and_true] at hr
        rw [← hr] at hs
        simp at hs
      | some p =>
        obtain ⟨ip, ipNet⟩ := p
        obtain ⟨data, hd, _⟩ := (ParseCIDR_facts h).2.2.2.2
        refine ⟨ip, ipNet, data, rfl, hd, ?_⟩
        have e := UpdateRule_parsed put t req h hd
        cases hp : put t ⟨ipNet.Mask.Size.1, data⟩ ⟨toUint32 req.Action, req.RedirectIfindex⟩ with
        | none => rfl
        | some msg =>
          rw [hp] at e
          rw [e] at hr
          simp only [Outcome.ret.injEq, Option.some.injEq, and_true] at hr
          rw [← hr] at hs
          simp at hs
    · rintro ⟨ip, ipNet, data, h, hd, hp⟩
      have e := UpdateRule_parsed put t req h hd
      rw [hp] at e
      exact ⟨⟨true, "Rule Applied"⟩, by rw [e], rfl⟩
  · intro ip ipNet h
    obtain ⟨data, hd, _⟩ := (ParseCIDR_facts h).2.2.2.2
    have e := UpdateRule_parsed put t req h hd
    refine ⟨data, hd, ?_, ?_⟩
    · intro hp
      rw [hp] at e
      simp only [] at e
      refine ⟨by rw [e], by rw [e]; exact Table.lookup_insert_self _ _ _, ?_⟩
      intro k hk
      rw [e]
      exact Table.lookup_insert_ne _ _ _ _ hk
    · intro msg hp
      rw [hp] at e
      exact e

/-- C8 at a concrete request, with a map that refuses every `Put` with the text
"no space left": the reply carries that text and the table is untouched. -/
theorem UpdateRule_success_iff_witness :
    UpdateRule (fun _ _ _ => some "no space left") [] ⟨"8.8.8.8/32", Action_REDIRECT, 3⟩
      = (Outcome.ret (some ⟨false, "no space left"⟩) none, []) := by
  obtain ⟨data, hd, -, hfail⟩ :=
    (UpdateRule_success_iff (fun _ _ _ => some "no space left") []
      ⟨"8.8.8.8/32", Action_REDIRECT, 3⟩).2 (v4InV6Prefix ++ [8, 8, 8, 8])
      ⟨[8, 8, 8, 8], [255, 255, 255, 255]⟩ (by decide)
  exact hfail "no space left" rfl

/-- C9: `ip2int` of the four bytes `[a,b,c,d]` is `a*2^24 + b*2^16 + c*2^8 + d`, below
`2^32`; of a 16-byte address it is the same value of its last four bytes; so the
4-byte and the IPv4-in-IPv6 form of one address agree, writing the result back as
four big-endian bytes gives the address again, and neither length panics. -/
theorem ip2int_bigEndian (a b c d : Byte) (p : List Byte) (hp : p.length = 12) :
    ip2int [a, b, c, d] = some (a.val * 2 ^ 24 + b.val * 2 ^ 16 + c.val * 2 ^ 8 + d.val) ∧
      a.val * 2 ^ 24 + b.val * 2 ^ 16 + c.val * 2 ^ 8 + d.val < 2 ^ 32 ∧
      ip2int (p ++ [a, b, c, d])
        = some (a.val * 2 ^ 24 + b.val * 2 ^ 16 + c.val * 2 ^ 8 + d.val) ∧
      ip2int (v4InV6Prefix ++ [a, b, c, d]) = ip2int [a, b, c, d] ∧
      (ip2int [a, b, c, d]).map putUint32BigEndian = some [a, b, c, d] := by
  have h4 := ip2int_four a b c d
  refine ⟨h4, ?_, ip2int_sixteen p hp a b c d, ?_, ?_⟩
  · have := a.isLt; have := b.isLt; have := c.isLt; have := d.isLt
    omega
  · rw [h4]; exact ip2int_sixteen _ (by simp [v4InV6Prefix]) a b c d
  · rw [h4]
    show some (putUint32BigEndian _) = _
    rw [putUint32BigEndian_bigEndian]

theorem ip2int_bigEndian_witness :
    ip2int [185, 100, 0, 7] = some (185 * 2 ^ 24 + 100 * 2 ^ 16 + 0 * 2 ^ 8 + 7) ∧
      185 * 2 ^ 24 + 100 * 2 ^ 16 + 0 * 2 ^ 8 + 7 < 2 ^ 32 ∧
      ip2int ([32, 1, 13, 184, 0, 0, 0, 0, 0, 0, 0, 0] ++ [185, 100, 0, 7])
        = some (185 * 2 ^ 24 + 100 * 2 ^ 16 + 0 * 2 ^ 8 + 7) ∧
      ip2int (v4InV6Prefix ++ [185, 100, 0, 7]) = ip2int [185, 100, 0, 7] ∧
      (ip2int [185, 100, 0, 7]).map putUint32BigEndian = some [185, 100, 0, 7] :=
  ip2int_bigEndian 185 100 0 7 [32, 1, 13, 184, 0, 0, 0, 0, 0, 0, 0, 0] rfl

/-! ## Distinct prefixes -/

/-- C10 (as stated, refuted): the IPv6 prefix `2001:db8::/32` and the IPv4 prefix
`0.0.0.0/32` are different prefixes, and so are `2001:db8::/32` and `2001:db9::/32`,
yet all three are packed into the key `(32, 0)`: installed one after another into
an empty table they leave a single entry, the last one. -/
theorem UpdateRule_key_not_injective :
    (ParseCIDR "2001:db8::/32").map Prod.snd ≠ (ParseCIDR "0.0.0.0/32").map Prod.snd ∧
      (ParseCIDR "2001:db8::/32").map Prod.snd ≠ (ParseCIDR "2001:db9::/32").map Prod.snd ∧
      (UpdateRule (fun _ _ _ => none) [] ⟨"2001:db8::/32", Action_DROP, 0⟩).2
        = [(⟨32, 0⟩, ⟨1, 0⟩)] ∧
      (UpdateRule (fun _ _ _ => none)
          (UpdateRule (fun _ _ _ => none) [] ⟨"2001:db8::/32", Action_DROP, 0⟩).2
          ⟨"0.0.0.0/32", Action_PASS, 0⟩).2
        = [(⟨32, 0⟩, ⟨0, 0⟩)] ∧
      (UpdateRule (fun _ _ _ => none)
          (UpdateRule (fun _ _ _ => none) [] ⟨"2001:db8::/32", Action_DROP, 0⟩).2
          ⟨"2001:db9::/32", Action_REDIRECT, 3⟩).2
        = [(⟨32, 0⟩, ⟨2, 3⟩)] := by
  decide

/-- C10 (amended): among IPv4 requests the key packing is injective on prefixes.
Two accepted IPv4 CIDR requests that denote different prefixes (different prefix
length or different network bits) get different keys, and after both are applied
with successful `Put`s each is found under its own key with its own value. -/
theorem UpdateRule_key_injective_v4 (put : PutBehaviour) (t : Table) (r1 r2 : Rule)
    (ip1 ip2 : IP) (n1 n2 : IPNet)
    (h1 : ParseCIDR r1.Cidr = some (ip1, n1)) (h2 : ParseCIDR r2.Cidr = some (ip2, n2))
    (hv1 : n1.Mask.length = 4) (hv2 : n2.Mask.length = 4) (hne : n1 ≠ n2)
    (hput : ∀ t1 k v, put t1 k v = none) :
    ∃ d1 d2, ip2int ip1 = some d1 ∧ ip2int ip2 = some d2 ∧
      (⟨n1.Mask.Size.1, d1⟩ : Key) ≠ ⟨n2.Mask.Size.1, d2⟩ ∧
      (UpdateRule put (UpdateRule put t r1).2 r2).2.lookup ⟨n1.Mask.Size.1, d1⟩
        = some ⟨toUint32 r1.Action, r1.RedirectIfindex⟩ ∧
      (UpdateRule put (UpdateRule put t r1).2 r2).2.lookup ⟨n2.Mask.Size.1, d2⟩
        = some ⟨toUint32 r2.Action, r2.RedirectIfindex⟩ := by
  obtain ⟨a, b, c, d, m0, m1, m2, m3, n, _, hip1, hM1, hC1, hS1, hnet1⟩ := ParseCIDR_v4 h1 hv1
  obtain ⟨a2, b2, c2, d2, k0, k1, k2, k3, n2v, _, hip2, hM2, hC2, hS2, hnet2⟩ :=
    ParseCIDR_v4 h2 hv2
  have hd1 : ip2int ip1 = some (a.val * 2 ^ 24 + b.val * 2 ^ 16 + c.val * 2 ^ 8 + d.val) := by
    rw [hip1]; exact ip2int_sixteen _ (by simp [v4InV6Prefix]) a b c d
  have hd2 : ip2int ip2
      = some (a2.val * 2 ^ 24 + b2.val * 2 ^ 16 + c2.val * 2 ^ 8 + d2.val) := by
    rw [hip2]; exact ip2int_sixteen _ (by simp [v4InV6Prefix]) a2 b2 c2 d2
  have hkey : (⟨n1.Mask.Size.1, a.val * 2 ^ 24 + b.val * 2 ^ 16 + c.val * 2 ^ 8 + d.val⟩ : Key)
      ≠ ⟨n2.Mask.Size.1, a2.val * 2 ^ 24 + b2.val * 2 ^ 16 + c2.val * 2 ^ 8 + d2.val⟩ := by
    intro he
    simp only [Key.mk.injEq] at he
    obtain ⟨hlen, hdata⟩ := he
    obtain ⟨ea, eb, ec, ed⟩ := bigEndian_inj _ _ _ _ _ _ _ _ hdata
    have hmask : n1.Mask = n2.Mask := by
      rw [hC1, hC2]
      rw [hS1, hS2] at hlen
      rw [hlen]
    apply hne
    have hM : ([m0, m1, m2, m3] : IPMask) = [k0, k1, k2, k3] := by rw [← hM1, ← hM2, hmask]
    simp only [List.cons.injEq, and_true] at hM
    obtain ⟨e0, e1, e2, e3⟩ := hM
    cases n1
    cases n2
    simp only [IPNet.mk.injEq]
    simp only at hnet1 hnet2 hmask
    refine ⟨?_, hmask⟩
    rw [hnet1, hnet2, ea, eb, ec, ed, e0, e1, e2, e3]
  have e1 := UpdateRule_parsed put t r1 h1 hd1
  rw [hput] at e1
  have e2 := UpdateRule_parsed put (UpdateRule put t r1).2 r2 h2 hd2
  rw [hput] at e2
  simp only [] at e1 e2
  refine ⟨_, _, hd1, hd2, hkey, ?_, ?_⟩
  · rw [e2, e1, Table.lookup_insert_ne _ _ _ _ hkey]
    exact Table.lookup_insert_self _ _ _
  · rw [e2]
    exact Table.lookup_insert_self _ _ _

theorem UpdateRule_key_injective_v4_witness :
    ∃ d1 d2, ip2int (v4InV6Prefix ++ [10, 0, 0, 0]) = some d1 ∧
      ip2int (v4InV6Prefix ++ [10, 1, 0, 0]) = some d2 ∧
      (⟨(IPMask.Size [255, 0, 0, 0]).1, d1⟩ : Key) ≠ ⟨(IPMask.Size [255, 255, 0, 0]).1, d2⟩ ∧
      (UpdateRule (fun _ _ _ => none)
          (UpdateRule (fun _ _ _ => none) [] ⟨"10.0.0.0/8", Action_DROP, 0⟩).2
          ⟨"10.1.0.0/16", Action_PASS, 0⟩).2.lookup ⟨(IPMask.Size [255, 0, 0, 0]).1, d1⟩
        = some ⟨toUint32 Action_DROP, 0⟩ ∧
      (UpdateRule (fun _ _ _ => none)
          (UpdateRule (fun _ _ _ => none) [] ⟨"10.0.0.0/8", Action_DROP, 0⟩).2
          ⟨"10.1.0.0/16", Action_PASS, 0⟩).2.lookup ⟨(IPMask.Size [255, 255, 0, 0]).1, d2⟩
        = some ⟨toUint32 Action_PASS, 0⟩ :=
  UpdateRule_key_injective_v4 (fun _ _ _ => none) []
    ⟨"10.0.0.0/8", Action_DROP, 0⟩ ⟨"10.1.0.0/16", Action_PASS, 0⟩
    (v4InV6Prefix ++ [10, 0, 0, 0]) (v4InV6Prefix ++ [10, 1, 0, 0])
    ⟨[10, 0, 0, 0], [255, 0, 0, 0]⟩ ⟨[10, 1, 0, 0], [255, 255, 0, 0]⟩
    (by decide) (by decide) rfl rfl (by decide) (fun _ _ _ => rfl)

end Firewall
